import Mathlib

/-!
Verification development for the PyPSA-BO grid-building subsystem.

The definitions below are a shallow embedding of the algorithmically dense
functions of `scripts/build_osm_network.py` and `scripts/build_bus_regions.py`:
the station clusterer (`set_substations_ids`), the bus consolidation
(`merge_stations_same_station_id`), the line-endpoint assignment
(`set_lines_ids`), the topology-repair driver
(`merge_stations_lines_by_station_id_and_voltage`), the equipment synthesis
(`get_transformers`, `get_converters`), the overpassing-line correction
(`fix_overpassing_lines` with `_split_linestring_by_point`), and the region
partitioner (`custom_voronoi_partition_pts`).

Modelling conventions:

* Coordinates are exact integers, read as fixed-point units of the source's
  float coordinates (for consolidated buses, the source's `np.round(x, 4)`
  makes every coordinate an integer multiple of `1e-4`, so units of `1e-4`
  are exact).  The CRS reprojections (`to_crs`) are external coordinate
  transforms and are modelled as the identity.
* The source compares Euclidean distances against a tolerance
  (`distance <= tol`); we compare squared distances against `tolSq = tol²`,
  which is equivalent for nonnegative tolerances.  Point-to-segment
  comparisons are cross-multiplied to stay division free.
* Dataframes become lists of structures; columns that no algorithm reads
  (free-form tags, construction flags, countries, …) are omitted; they are
  carried through the source functions unchanged.
* A Python function that can raise (`idxmin` on an empty frame,
  `pd.concat` of an empty list, `np.amin` of an empty array) is embedded as
  an `Option`-valued function returning `none` in exactly those cases.
-/

namespace PyPSABO

/-- A planar point in a distance-preserving coordinate frame (see the header
on fixed-point integer coordinates). -/
abbrev Pt := ℤ × ℤ

/-- Squared Euclidean distance between two points. -/
def distSq (p q : Pt) : ℤ :=
  (p.1 - q.1) * (p.1 - q.1) + (p.2 - q.2) * (p.2 - q.2)

lemma distSq_self (p : Pt) : distSq p p = 0 := by
  simp [distSq]

lemma distSq_nonneg (p q : Pt) : 0 ≤ distSq p q :=
  add_nonneg (mul_self_nonneg _) (mul_self_nonneg _)

lemma distSq_le_zero_iff {p q : Pt} : distSq p q ≤ 0 ↔ p = q := by
  constructor
  · intro h
    have h0 : distSq p q = 0 := le_antisymm h (distSq_nonneg p q)
    unfold distSq at h0
    have h1 := (add_eq_zero_iff_of_nonneg (mul_self_nonneg _) (mul_self_nonneg _)).mp h0
    have hx : p.1 = q.1 := by
      have := mul_self_eq_zero.mp h1.1; linarith
    have hy : p.2 = q.2 := by
      have := mul_self_eq_zero.mp h1.2; linarith
    exact Prod.ext hx hy
  · intro h
    subst h
    simp [distSq_self]

/-! ## Station clusterer: `set_substations_ids`

`set_substations_ids(buses, distance_crs, tol)` initialises a `station_id`
column to `-1`, then walks the buses in order.  A visited bus
(`station_id >= 0`) is skipped.  Otherwise the indices within tolerance are
collected (`np.flatnonzero(distance <= tol)`, ascending); a singleton
neighbourhood receives a fresh id; a neighbourhood whose ids are all
negative receives a fresh id as a group; otherwise the first non-negative
id among the neighbourhood (in index order) is written to *every* member of
the neighbourhood. -/

/-- The mutable state of the loop: the `station_id` column (parallel to the
bus list) and the fresh-id counter. -/
structure ClusterState where
  ids : List ℤ
  next : ℕ
deriving DecidableEq

/-- Indices of buses within tolerance of bus `i`:
`np.flatnonzero(temp_bus_geom.distance(temp_bus_geom.loc[i]) <= tol)`. -/
def closeNodes (pos : List Pt) (tolSq : ℤ) (i : ℕ) : List ℕ :=
  (List.range pos.length).filter fun j =>
    decide (distSq (pos.getD j (0, 0)) (pos.getD i (0, 0)) ≤ tolSq)

/-- One iteration of the `set_substations_ids` loop, at bus index `i`.
`subset.all (· < 0)` and `subset.any (· < 0)` embed the source's
`subset.max() < 0` and `subset.min() < 0` (the neighbourhood is nonempty
whenever the tolerance is nonnegative, since it contains `i` itself). -/
def set_substations_ids_step (pos : List Pt) (tolSq : ℤ) (s : ClusterState)
    (i : ℕ) : ClusterState :=
  if 0 ≤ s.ids.getD i (-1) then s
  else
    let close := closeNodes pos tolSq i
    if close.length = 1 then
      ⟨s.ids.set i (Int.ofNat s.next), s.next + 1⟩
    else
      let subset := close.map fun j => s.ids.getD j (-1)
      if subset.all fun v => decide (v < 0) then
        ⟨close.foldl (fun a j => a.set j (Int.ofNat s.next)) s.ids, s.next + 1⟩
      else if subset.any fun v => decide (v < 0) then
        ⟨close.foldl
          (fun a j => a.set j ((subset.filter fun v => decide (0 ≤ v)).headD (-1)))
          s.ids, s.next⟩
      else s

/-- `set_substations_ids`: the final `station_id` column. -/
def set_substations_ids (pos : List Pt) (tolSq : ℤ) : List ℤ :=
  ((List.range pos.length).foldl (set_substations_ids_step pos tolSq)
    ⟨List.replicate pos.length (-1), 0⟩).ids

/-! ### Helper lemmas about the clusterer -/

lemma filter_range_eq_single :
    ∀ (n i : ℕ) (p : ℕ → Bool), i < n →
      (∀ j, j < n → (p j = true ↔ j = i)) →
      (List.range n).filter p = [i] := by
  intro n
  induction n with
  | zero => intro i p hi _; omega
  | succ m ih =>
    intro i p hi hp
    rw [List.range_succ, List.filter_append]
    by_cases him : i = m
    · have h1 : (List.range m).filter p = [] := by
        rw [List.filter_eq_nil_iff]
        intro a ha hpa
        have ham : a < m := List.mem_range.mp ha
        have := (hp a (by omega)).mp hpa
        omega
      have hm : p m = true := (hp m (by omega)).mpr him.symm
      simp [h1, hm, him]
    · have hi2 : i < m := by omega
      have h1 := ih i p hi2 (fun j hj => hp j (by omega))
      have hm : ¬ p m = true := by
        rw [hp m (by omega)]; omega
      simp [h1, hm]

/-- The `station_id` column after the first `a` iterations with tolerance 0
on pairwise-distinct positions: bus `m` holds id `m` when `m < a`, else `-1`. -/
def idsUpTo (n a : ℕ) : List ℤ :=
  (List.range n).map fun m => if m < a then Int.ofNat m else -1

lemma idsUpTo_length (n a : ℕ) : (idsUpTo n a).length = n := by
  simp [idsUpTo]

lemma idsUpTo_getD {n a m : ℕ} (hm : m < n) :
    (idsUpTo n a).getD m (-1) = if m < a then Int.ofNat m else -1 := by
  rw [idsUpTo, List.getD_eq_getElem?_getD, List.getElem?_map,
    List.getElem?_range hm]
  rfl

lemma step_at_fresh (pos : List Pt)
    (hd : ∀ i, i < pos.length → ∀ j, j < pos.length → i ≠ j →
      pos.getD i (0, 0) ≠ pos.getD j (0, 0))
    (a : ℕ) (ha : a < pos.length) :
    set_substations_ids_step pos 0 ⟨idsUpTo pos.length a, a⟩ a
      = ⟨idsUpTo pos.length (a + 1), a + 1⟩ := by
  have hga : (idsUpTo pos.length a).getD a (-1) = -1 := by
    rw [idsUpTo_getD ha]; simp
  have hclose : closeNodes pos 0 a = [a] := by
    apply filter_range_eq_single pos.length a _ ha
    intro j hj
    constructor
    · intro h
      by_contra hne
      exact hd j hj a ha hne (distSq_le_zero_iff.mp (of_decide_eq_true h))
    · intro h
      subst h
      simp [distSq_self]
  unfold set_substations_ids_step
  rw [hga]
  norm_num
  rw [hclose]
  norm_num
  apply List.ext_getElem
  · simp [idsUpTo_length]
  · intro m h1 h2
    rw [List.getElem_set]
    simp only [idsUpTo, List.getElem_map, List.getElem_range]
    by_cases hma : a = m
    · subst hma
      simp
    · have hiff : (m < a) = (m < a + 1) := by
        by_cases h : m < a
        · have h2 : m < a + 1 := by omega
          simp [h, h2]
        · have h2 : ¬ m < a + 1 := by omega
          simp [h, h2]
      simp [hma, hiff]

lemma fold_range_fresh (pos : List Pt)
    (hd : ∀ i, i < pos.length → ∀ j, j < pos.length → i ≠ j →
      pos.getD i (0, 0) ≠ pos.getD j (0, 0)) :
    ∀ (b a : ℕ), a + b = pos.length →
      (List.range' a b).foldl (set_substations_ids_step pos 0)
          ⟨idsUpTo pos.length a, a⟩
        = ⟨idsUpTo pos.length pos.length, pos.length⟩ := by
  intro b
  induction b with
  | zero =>
    intro a hab
    have : a = pos.length := by omega
    subst this
    simp [List.range']
  | succ m ih =>
    intro a hab
    have hstep : List.range' a (m + 1) = a :: List.range' (a + 1) m := by
      simpa using List.range'_succ a m 1
    rw [hstep, List.foldl_cons, step_at_fresh pos hd a (by omega)]
    exact ih (a + 1) (by omega)

/-- With tolerance 0 and pairwise-distinct positions, the clusterer assigns
ids `0, 1, …, n-1` in input order. -/
lemma set_substations_ids_tol_zero_eq (pos : List Pt)
    (hd : ∀ i, i < pos.length → ∀ j, j < pos.length → i ≠ j →
      pos.getD i (0, 0) ≠ pos.getD j (0, 0)) :
    set_substations_ids pos 0
      = (List.range pos.length).map fun m => Int.ofNat m := by
  unfold set_substations_ids
  have h0 : List.replicate pos.length (-1 : ℤ) = idsUpTo pos.length 0 := by
    apply List.ext_getElem
    · simp [idsUpTo_length]
    · intro m h1 h2
      simp [idsUpTo]
  rw [List.range_eq_range', h0,
    fold_range_fresh pos hd pos.length 0 (by omega), ← List.range_eq_range']
  apply List.map_congr_left
  intro m hm
  simp [List.mem_range.mp hm]

/-- C2: with tolerance `r = 0`, for a set of buses (pairwise-distinct
locations), every bus receives a distinct station id: no two buses end up
sharing a station id. -/
theorem set_substations_ids_tol_zero_all_distinct (pos : List Pt)
    (hd : ∀ i, i < pos.length → ∀ j, j < pos.length → i ≠ j →
      pos.getD i (0, 0) ≠ pos.getD j (0, 0)) :
    ∀ i, i < pos.length → ∀ j, j < pos.length → i ≠ j →
      (set_substations_ids pos 0).getD i (-1)
        ≠ (set_substations_ids pos 0).getD j (-1) := by
  intro i hi j hj hij
  rw [set_substations_ids_tol_zero_eq pos hd]
  rw [List.getD_eq_getElem?_getD, List.getElem?_map, List.getElem?_range hi]
  rw [List.getD_eq_getElem?_getD, List.getElem?_map, List.getElem?_range hj]
  intro h
  apply hij
  simpa using h

/-- Witness for C2 at a concrete two-bus input. -/
theorem set_substations_ids_tol_zero_all_distinct_witness :
    (set_substations_ids [((0 : ℤ), (0 : ℤ)), (5, 0)] 0).getD 0 (-1)
      ≠ (set_substations_ids [((0 : ℤ), (0 : ℤ)), (5, 0)] 0).getD 1 (-1) :=
  set_substations_ids_tol_zero_all_distinct
    [((0 : ℤ), (0 : ℤ)), (5, 0)] (by decide) 0 (by decide) 1 (by decide)
    (by decide)

/-! ### C3: propagation of the first non-negative id -/

lemma foldl_set_getD (l : List ℕ) (v : ℤ) (ids : List ℤ) (j : ℕ)
    (hj : j < ids.length) :
    (l.foldl (fun a k => a.set k v) ids).getD j (-1)
      = if j ∈ l then v else ids.getD j (-1) := by
  induction l generalizing ids with
  | nil => simp
  | cons k t ih =>
    rw [List.foldl_cons, ih (ids.set k v) (by simpa using hj)]
    by_cases hjt : j ∈ t
    · simp [hjt]
    · by_cases hjk : j = k
      · subst hjk
        rw [if_neg hjt, if_pos (List.mem_cons_self j t)]
        rw [List.getD_eq_getElem?_getD, List.getElem?_set_self hj]
        rfl
      · rw [if_neg hjt, if_neg (by simp [hjk, hjt])]
        rw [List.getD_eq_getElem?_getD,
          List.getElem?_set_ne (fun h => hjk h.symm),
          ← List.getD_eq_getElem?_getD]

lemma headD_filter_sat {α : Type} {p : α → Bool} {l : List α} {d : α}
    (h : ∃ x ∈ l, p x = true) : p ((l.filter p).headD d) = true := by
  have hne : l.filter p ≠ [] := by
    intro hnil
    obtain ⟨x, hx, hpx⟩ := h
    exact absurd hpx (by simpa using (List.filter_eq_nil_iff.mp hnil) x hx)
  cases hlf : l.filter p with
  | nil => exact absurd hlf hne
  | cons a t =>
    have ha : a ∈ l.filter p := by rw [hlf]; exact List.mem_cons_self a t
    simpa using (List.mem_filter.mp ha).2

lemma mem_closeNodes_self {pos : List Pt} {tolSq : ℤ} {i : ℕ}
    (hi : i < pos.length) (htol : 0 ≤ tolSq) :
    i ∈ closeNodes pos tolSq i := by
  rw [closeNodes, List.mem_filter]
  exact ⟨List.mem_range.mpr hi, by simp [distSq_self, htol]⟩

lemma mem_closeNodes_lt {pos : List Pt} {tolSq : ℤ} {i j : ℕ}
    (hj : j ∈ closeNodes pos tolSq i) : j < pos.length := by
  rw [closeNodes, List.mem_filter, List.mem_range] at hj
  exact hj.1

/-- C3 (amended): when the neighbourhood of an unvisited bus contains at
least one bus holding a non-negative station id, the first-encountered
non-negative id is assigned to *every* member of the neighbourhood —
including members that already held a (possibly different) non-negative id,
which are overwritten; buses outside the neighbourhood are untouched. -/
theorem set_substations_step_assigns_first_nonneg_to_all
    (pos : List Pt) (tolSq : ℤ) (s : ClusterState) (i : ℕ)
    (hlen : s.ids.length = pos.length) (hi : i < pos.length)
    (htol : 0 ≤ tolSq)
    (hneg : s.ids.getD i (-1) < 0)
    (hsome : ∃ j ∈ closeNodes pos tolSq i, 0 ≤ s.ids.getD j (-1)) :
    0 ≤ (((closeNodes pos tolSq i).map fun j => s.ids.getD j (-1)).filter
        (fun v => decide (0 ≤ v))).headD (-1)
    ∧ (∀ j ∈ closeNodes pos tolSq i,
        (set_substations_ids_step pos tolSq s i).ids.getD j (-1)
          = (((closeNodes pos tolSq i).map fun j => s.ids.getD j (-1)).filter
              (fun v => decide (0 ≤ v))).headD (-1))
    ∧ (∀ j, j < pos.length → j ∉ closeNodes pos tolSq i →
        (set_substations_ids_step pos tolSq s i).ids.getD j (-1)
          = s.ids.getD j (-1)) := by
  obtain ⟨j0, hj0mem, hj0⟩ := hsome
  have hij0 : i ≠ j0 := by
    intro h
    rw [h] at hneg
    omega
  have himem : i ∈ closeNodes pos tolSq i := mem_closeNodes_self hi htol
  have hlen1 : (closeNodes pos tolSq i).length ≠ 1 := by
    intro h
    obtain ⟨a, ha⟩ := List.length_eq_one.mp h
    rw [ha] at himem hj0mem
    simp at himem hj0mem
    exact hij0 (himem.trans hj0mem.symm)
  have hsub : ∃ x ∈ (closeNodes pos tolSq i).map fun j => s.ids.getD j (-1),
      decide (0 ≤ x) = true := by
    refine ⟨s.ids.getD j0 (-1), List.mem_map_of_mem _ hj0mem, by simpa using hj0⟩
  have hall : (((closeNodes pos tolSq i).map fun j => s.ids.getD j (-1)).all
      fun v => decide (v < 0)) = false := by
    rw [Bool.eq_false_iff]
    intro hcon
    have := List.all_eq_true.mp hcon _ (List.mem_map_of_mem _ hj0mem)
    simp only [decide_eq_true_eq] at this
    omega
  have hany : (((closeNodes pos tolSq i).map fun j => s.ids.getD j (-1)).any
      fun v => decide (v < 0)) = true := by
    rw [List.any_eq_true]
    exact ⟨s.ids.getD i (-1), List.mem_map_of_mem _ himem, by simpa using hneg⟩
  have hstep : (set_substations_ids_step pos tolSq s i).ids
      = (closeNodes pos tolSq i).foldl
          (fun a j => a.set j
            ((((closeNodes pos tolSq i).map fun j => s.ids.getD j (-1)).filter
              fun v => decide (0 ≤ v)).headD (-1)))
          s.ids := by
    simp only [set_substations_ids_step]
    rw [if_neg (by omega : ¬ (0 : ℤ) ≤ s.ids.getD i (-1)), if_neg hlen1,
      if_neg (by rw [hall]; simp), if_pos hany]
  refine ⟨?_, ?_, ?_⟩
  · have := headD_filter_sat (d := (-1 : ℤ)) hsub
    simpa using this
  · intro j hj
    rw [hstep, foldl_set_getD _ _ _ _ (by rw [hlen]; exact mem_closeNodes_lt hj),
      if_pos hj]
  · intro j hjlen hj
    rw [hstep, foldl_set_getD _ _ _ _ (by rw [hlen]; exact hjlen), if_neg hj]

/-- Concrete five-bus input for C3: buses at x = 0, 4, 1, 3, 2 with
tolerance 1 (squared tolerance 1). -/
def cexPos : List Pt := [(0, 0), (4, 0), (1, 0), (3, 0), (2, 0)]

/-- The clusterer state after the first four iterations on `cexPos`. -/
def cexState4 : ClusterState :=
  (List.range 4).foldl (set_substations_ids_step cexPos 1)
    ⟨List.replicate 5 (-1), 0⟩

/-- C3 counterexample: after four iterations bus 3 holds station id 1 and
bus 4 is unvisited with bus 3 inside its tolerance neighbourhood; the final
output nevertheless maps bus 3 to station id 0 — a member already holding a
non-negative id does *not* keep it. -/
theorem set_substations_ids_overwrites_nonneg_id_cex :
    cexState4.ids.getD 3 (-1) = 1
    ∧ 3 ∈ closeNodes cexPos 1 4
    ∧ cexState4.ids.getD 4 (-1) < 0
    ∧ (set_substations_ids cexPos 1).getD 3 (-1) = 0 := by decide

/-- Witness for the amended C3 theorem, at the `cexPos` scenario. -/
theorem set_substations_step_assigns_first_nonneg_to_all_witness :
    0 ≤ (((closeNodes cexPos 1 4).map fun j => cexState4.ids.getD j (-1)).filter
        (fun v => decide (0 ≤ v))).headD (-1)
    ∧ (∀ j ∈ closeNodes cexPos 1 4,
        (set_substations_ids_step cexPos 1 cexState4 4).ids.getD j (-1)
          = (((closeNodes cexPos 1 4).map fun j => cexState4.ids.getD j (-1)).filter
              (fun v => decide (0 ≤ v))).headD (-1))
    ∧ (∀ j, j < cexPos.length → j ∉ closeNodes cexPos 1 4 →
        (set_substations_ids_step cexPos 1 cexState4 4).ids.getD j (-1)
          = cexState4.ids.getD j (-1)) :=
  set_substations_step_assigns_first_nonneg_to_all cexPos 1 cexState4 4
    (by decide) (by decide) (by decide) (by decide)
    ⟨3, by decide, by decide⟩

/-! ## Bus consolidation: `merge_stations_same_station_id`

One consolidated bus per `(station_id, voltage, dc)` key; the location is
the station mean (`np.round(mean, 4)`), shifted by `v_it * delta` per key
so that distinct keys of one station never coincide.  In fixed-point units
of `1e-4`, `delta_lon = delta_lat = 0.001` is `10` units. -/

/-- A raw substation point.  Tag/flag columns not read by any embedded
algorithm (symbol, country, construction status, …) are omitted; the source
carries them through unchanged. -/
structure RawBus where
  voltage : ℤ
  dc : Bool
  x : ℤ
  y : ℤ
deriving DecidableEq

/-- A consolidated bus: one per `(station_id, voltage, dc)`. -/
structure CBus where
  bus_id : ℤ
  station_id : ℤ
  voltage : ℤ
  dc : Bool
  x : ℤ
  y : ℤ
deriving DecidableEq

/-- Round `a / b` (with `b > 0`) to the nearest integer, halves to even:
`np.round`'s rounding mode.  In fixed-point units, `np.round(mean, 4)` is
exactly rounding the mean to the nearest unit. -/
def roundHalfEvenDiv (a b : ℤ) : ℤ :=
  let q := a.fdiv b
  let r := a.fmod b
  if 2 * r < b then q
  else if b < 2 * r then q + 1
  else if q % 2 = 0 then q else q + 1

/-- Ascending deduplicated group keys, as produced by `groupby` (pandas
sorts group keys ascending). -/
def sortedStationIds (l : List ℤ) : List ℤ :=
  l.dedup.insertionSort fun a b => a ≤ b

/-- Ascending deduplicated `(voltage, dc)` group keys (lexicographic,
`False < True`). -/
def sortedVDKeys (l : List (ℤ × Bool)) : List (ℤ × Bool) :=
  l.dedup.insertionSort fun a b =>
    a.1 < b.1 ∨ (a.1 = b.1 ∧ (a.2 = true → b.2 = true))

/-- The consolidated buses of one station group `g` (raw buses paired with
their station id `sid`), with bus ids starting at `startId`. -/
def consolidateStation (g : List (RawBus × ℤ)) (sid : ℤ) (startId : ℕ)
    (deltaLon deltaLat : ℤ) : List CBus :=
  let mx := roundHalfEvenDiv ((g.map fun b => b.1.x).sum) (Int.ofNat g.length)
  let my := roundHalfEvenDiv ((g.map fun b => b.1.y).sum) (Int.ofNat g.length)
  let keys := sortedVDKeys (g.map fun b => (b.1.voltage, b.1.dc))
  (List.range keys.length).map fun k =>
    { bus_id := Int.ofNat (startId + k)
      station_id := sid
      voltage := (keys.getD k (0, false)).1
      dc := (keys.getD k (0, false)).2
      x := mx + Int.ofNat k * deltaLon
      y := my + Int.ofNat k * deltaLat }

/-- `merge_stations_same_station_id`. -/
def merge_stations_same_station_id (buses : List (RawBus × ℤ))
    (deltaLon : ℤ := 10) (deltaLat : ℤ := 10) : List CBus :=
  ((sortedStationIds (buses.map fun b => b.2)).foldl
    (fun acc sid =>
      let g := buses.filter fun b => decide (b.2 = sid)
      let newBuses := consolidateStation g sid acc.2 deltaLon deltaLat
      (acc.1 ++ newBuses, acc.2 + newBuses.length))
    (([] : List CBus), 0)).1

/-! ## Line endpoint assignment: `set_lines_ids` -/

/-- A raw line: voltage/polarity and its path geometry (vertex list).
Attribute columns not read by the embedded algorithms are omitted. -/
structure LineRec where
  line_id : String
  voltage : ℤ
  dc : Bool
  geometry : List Pt
deriving DecidableEq

/-- A line whose two endpoints have been assigned bus ids. -/
structure ALine where
  line : LineRec
  bus0 : ℤ
  bus1 : ℤ
deriving DecidableEq

/-- First vertex of the path: `geometry.boundary.geoms[0]`. -/
def lineEp0 (l : LineRec) : Pt := l.geometry.headD (0, 0)

/-- Last vertex of the path: `geometry.boundary.geoms[1]`. -/
def lineEp1 (l : LineRec) : Pt := l.geometry.getLastD (0, 0)

/-- Candidate buses for a line: same voltage and same polarity
(`(buses.voltage == row.voltage) & (buses.dc == row.dc)`). -/
def lineCandidates (buses : List CBus) (l : LineRec) : List CBus :=
  buses.filter fun b => decide (b.voltage = l.voltage) && decide (b.dc = l.dc)

/-- `Series.idxmin` over the distances to `p`: the first bus attaining the
minimum distance; `none` on an empty candidate list (where `idxmin` raises
`ValueError`). -/
def nearestBus (cands : List CBus) (p : Pt) : Option CBus :=
  match cands with
  | [] => none
  | b :: bs =>
    match nearestBus bs p with
    | none => some b
    | some c =>
      if distSq (b.x, b.y) p ≤ distSq (c.x, c.y) p then some b else some c

/-- `set_lines_ids`: assign each line endpoint to the nearest
voltage/polarity-compatible bus.  The source's in-place geometry extension
(`linemerge` with a stub segment) changes only the geometry column and is
omitted.  A line with an empty candidate set makes the whole call raise
(`idxmin` on an empty frame), embedded as `none`. -/
def set_lines_ids (lines : List LineRec) (buses : List CBus) :
    Option (List ALine) :=
  match lines with
  | [] => some []
  | l :: ls =>
    match nearestBus (lineCandidates buses l) (lineEp0 l),
        nearestBus (lineCandidates buses l) (lineEp1 l) with
    | some b0, some b1 =>
      (set_lines_ids ls buses).map fun rest => ⟨l, b0.bus_id, b1.bus_id⟩ :: rest
    | _, _ => none

/-- The post-assignment drop:
`lines.drop(lines[lines["bus0"] == lines["bus1"]].index)`. -/
def drop_self_loop_lines (out : List ALine) : List ALine :=
  out.filter fun a => !decide (a.bus0 = a.bus1)

/-- The consolidated bus table produced inside
`merge_stations_lines_by_station_id_and_voltage`. -/
def merged_buses (buses : List RawBus) (tolSq : ℤ) : List CBus :=
  merge_stations_same_station_id
    (buses.zip (set_substations_ids (buses.map fun b => (b.x, b.y)) tolSq))

/-- `merge_stations_lines_by_station_id_and_voltage`: set station ids,
consolidate buses, assign line endpoints, drop self-loop lines.  The column
bookkeeping (`line_endings_to_bus_conversion`, `set_lv_substations`) is
omitted. -/
def merge_stations_lines_by_station_id_and_voltage (lines : List LineRec)
    (buses : List RawBus) (tolSq : ℤ) : Option (List ALine × List CBus) :=
  let cb := merged_buses buses tolSq
  (set_lines_ids lines cb).map fun out => (drop_self_loop_lines out, cb)

/-! ### C4: empty candidate set -/

lemma nearestBus_mem {cands : List CBus} {p : Pt} {b : CBus}
    (h : nearestBus cands p = some b) : b ∈ cands := by
  induction cands with
  | nil => simp [nearestBus] at h
  | cons c cs ih =>
    rw [nearestBus] at h
    cases hcs : nearestBus cs p with
    | none =>
      rw [hcs] at h
      simp at h
      simp [h]
    | some d =>
      simp only [hcs] at h
      by_cases hle : distSq (c.x, c.y) p ≤ distSq (d.x, d.y) p
      · rw [if_pos hle] at h
        simp at h
        simp [h]
      · rw [if_neg hle] at h
        simp at h
        subst h
        exact List.mem_cons_of_mem c (ih hcs)

lemma set_lines_ids_none_of_empty {lines : List LineRec} {buses : List CBus}
    (h : ∃ l ∈ lines, lineCandidates buses l = []) :
    set_lines_ids lines buses = none := by
  induction lines with
  | nil => simp at h
  | cons l ls ih =>
    obtain ⟨m, hm, hcand⟩ := h
    rcases List.mem_cons.mp hm with hml | hmls
    · subst hml
      rw [set_lines_ids, hcand]
      simp [nearestBus]
    · rw [set_lines_ids]
      cases h0 : nearestBus (lineCandidates buses l) (lineEp0 l) with
      | none => rfl
      | some b0 =>
        cases h1 : nearestBus (lineCandidates buses l) (lineEp1 l) with
        | none => rfl
        | some b1 =>
          rw [ih ⟨m, hmls, hcand⟩]
          rfl

lemma set_lines_ids_sound {lines : List LineRec} {buses : List CBus} :
    ∀ out, set_lines_ids lines buses = some out →
      ∀ a ∈ out,
        (∃ b0 ∈ buses, a.bus0 = b0.bus_id ∧ b0.voltage = a.line.voltage
          ∧ b0.dc = a.line.dc)
        ∧ (∃ b1 ∈ buses, a.bus1 = b1.bus_id ∧ b1.voltage = a.line.voltage
          ∧ b1.dc = a.line.dc) := by
  induction lines with
  | nil =>
    intro out h a ha
    rw [set_lines_ids] at h
    simp at h
    subst h
    simp at ha
  | cons l ls ih =>
    intro out h a ha
    rw [set_lines_ids] at h
    cases h0 : nearestBus (lineCandidates buses l) (lineEp0 l) with
    | none => rw [h0] at h; simp at h
    | some b0 =>
      cases h1 : nearestBus (lineCandidates buses l) (lineEp1 l) with
      | none => rw [h0, h1] at h; simp at h
      | some b1 =>
        rw [h0, h1] at h
        cases hrest : set_lines_ids ls buses with
        | none => rw [hrest] at h; simp at h
        | some rest =>
          rw [hrest] at h
          simp at h
          subst h
          rcases List.mem_cons.mp ha with hal | har
          · subst hal
            have hm0 := List.mem_filter.mp (nearestBus_mem h0)
            have hm1 := List.mem_filter.mp (nearestBus_mem h1)
            simp only [Bool.and_eq_true, decide_eq_true_eq] at hm0 hm1
            exact ⟨⟨b0, hm0.1, rfl, hm0.2.1, hm0.2.2⟩,
              ⟨b1, hm1.1, rfl, hm1.2.1, hm1.2.2⟩⟩
          · exact ih rest hrest a har

/-- C4 (amended): a line whose candidate bus set is empty makes the whole
endpoint-assignment call fail (the `idxmin` of an empty frame raises): no
line table is produced — the line is not excluded-with-diagnostic, and the
remaining lines are not processed.  Whenever the call succeeds, every line
is assigned buses of its own voltage and polarity, never a mismatched bus. -/
theorem set_lines_ids_empty_candidates_aborts (lines : List LineRec)
    (buses : List CBus) :
    ((∃ l ∈ lines, lineCandidates buses l = []) →
      set_lines_ids lines buses = none)
    ∧ (∀ out, set_lines_ids lines buses = some out →
      ∀ a ∈ out,
        (∃ b0 ∈ buses, a.bus0 = b0.bus_id ∧ b0.voltage = a.line.voltage
          ∧ b0.dc = a.line.dc)
        ∧ (∃ b1 ∈ buses, a.bus1 = b1.bus_id ∧ b1.voltage = a.line.voltage
          ∧ b1.dc = a.line.dc)) :=
  ⟨fun h => set_lines_ids_none_of_empty h, set_lines_ids_sound⟩

/-- Concrete data for C4. -/
def cexBus220 : CBus := ⟨7, 0, 220000, false, 0, 0⟩

def cexLine110 : LineRec := ⟨"L1", 110000, false, [(0, 0), (10, 0)]⟩

def cexLine220 : LineRec := ⟨"L2", 220000, false, [(0, 0), (10, 0)]⟩

/-- C4 counterexample: with one 220 kV bus, the 110 kV line has an empty
candidate set; the call produces no output at all (the `idxmin`
`ValueError`), instead of excluding that line as a diagnostic and
processing the 220 kV line. -/
theorem set_lines_ids_empty_candidates_cex :
    set_lines_ids [cexLine110, cexLine220] [cexBus220] = none := by decide

/-- Witness for the amended C4 theorem: a single line with no compatible
bus makes the call fail. -/
theorem set_lines_ids_empty_candidates_aborts_witness :
    set_lines_ids [cexLine110] [] = none :=
  (set_lines_ids_empty_candidates_aborts [cexLine110] []).1
    ⟨cexLine110, by decide, by decide⟩

/-! ### C6: exactly the self-loop lines are dropped -/

/-- C6: after topology repair, every remaining line has `bus0 ≠ bus1`; the
produced line table is exactly the assigned table with the self-loop lines
removed — nothing else is dropped by this step. -/
theorem merge_stations_drops_exactly_self_loops (lines : List LineRec)
    (buses : List RawBus) (tolSq : ℤ) (res : List ALine × List CBus)
    (h : merge_stations_lines_by_station_id_and_voltage lines buses tolSq
      = some res) :
    (∀ a ∈ res.1, a.bus0 ≠ a.bus1)
    ∧ ∃ assigned,
        set_lines_ids lines (merged_buses buses tolSq) = some assigned
        ∧ res.1 = assigned.filter (fun a => !decide (a.bus0 = a.bus1))
        ∧ ∀ a ∈ assigned, a.bus0 ≠ a.bus1 → a ∈ res.1 := by
  simp only [merge_stations_lines_by_station_id_and_voltage] at h
  cases hs : set_lines_ids lines (merged_buses buses tolSq) with
  | none => rw [hs] at h; simp at h
  | some assigned =>
    rw [hs] at h
    simp only [Option.map_some'] at h
    have hres : res = (drop_self_loop_lines assigned, merged_buses buses tolSq) := by
      cases h
      rfl
    subst hres
    refine ⟨?_, assigned, rfl, rfl, ?_⟩
    · intro a ha
      have := (List.mem_filter.mp ha).2
      simpa using this
    · intro a ha hne
      exact List.mem_filter.mpr ⟨ha, by simpa using hne⟩

/-- Concrete data for the C6 witness. -/
def wRawBus : RawBus := ⟨220000, false, 0, 0⟩

def wLine : LineRec := ⟨"W", 220000, false, [(0, 0), (10, 0)]⟩

/-- The consolidated bus produced from `wRawBus` alone. -/
def wCBus : CBus := ⟨0, 0, 220000, false, 0, 0⟩

/-- Witness for C6: a line whose two endpoints snap to the same
consolidated bus is dropped, leaving an empty corrected table. -/
theorem merge_stations_drops_exactly_self_loops_witness :
    (∀ a ∈ (([], [wCBus]) : List ALine × List CBus).1, a.bus0 ≠ a.bus1)
    ∧ ∃ assigned,
        set_lines_ids [wLine] (merged_buses [wRawBus] 0) = some assigned
        ∧ (([], [wCBus]) : List ALine × List CBus).1
            = assigned.filter (fun a => !decide (a.bus0 = a.bus1))
        ∧ ∀ a ∈ assigned, a.bus0 ≠ a.bus1 →
            a ∈ (([], [wCBus]) : List ALine × List CBus).1 :=
  merge_stations_drops_exactly_self_loops [wLine] [wRawBus] 0
    ([], [wCBus]) (by decide)

/-! ## Equipment synthesis: `get_transformers`

`get_transformers` restricts to AC buses, sorts them by ascending voltage
(`sort_values("voltage")`), groups by `station_id`, and inside every group
of more than one bus emits one transformer between each consecutive pair.
The `line_id` string, the frequency, the country and the connecting
geometry are carried along by the source and omitted here. -/

/-- A synthesised transformer (station id kept explicit; the source encodes
it in `line_id = f"transf_{station}_{idx}"`). -/
structure Transf where
  station : ℤ
  bus0 : ℤ
  bus1 : ℤ
  voltage0 : ℤ
  voltage1 : ℤ
deriving DecidableEq

/-- `sort_values("voltage", ascending=True)`. -/
def sortByVoltage (l : List CBus) : List CBus :=
  l.insertionSort fun a b => a.voltage ≤ b.voltage

/-- Consecutive pairs of a list (`iloc[id], iloc[id+1]`). -/
def consecPairs {α : Type} : List α → List (α × α)
  | a :: b :: rest => (a, b) :: consecPairs (b :: rest)
  | _ => []

/-- `get_transformers`. -/
def get_transformers (buses : List CBus) : List Transf :=
  let acSorted := sortByVoltage (buses.filter fun b => !b.dc)
  (sortedStationIds (acSorted.map fun b => b.station_id)).flatMap fun g =>
    (consecPairs (acSorted.filter fun b => decide (b.station_id = g))).map
      fun pr => ⟨g, pr.1.bus_id, pr.2.bus_id, pr.1.voltage, pr.2.voltage⟩

/-! ### Counting infrastructure -/

lemma consecPairs_length {α : Type} : ∀ l : List α,
    (consecPairs l).length = l.length - 1 := by
  intro l
  induction l with
  | nil => rfl
  | cons a t ih =>
    cases t with
    | nil => rfl
    | cons b rest =>
      simp only [consecPairs, List.length_cons] at ih ⊢
      omega

lemma consecPairs_rel {α : Type} {R : α → α → Prop} :
    ∀ {l : List α}, l.Pairwise R → ∀ p ∈ consecPairs l, R p.1 p.2 := by
  intro l
  induction l with
  | nil => intro _ p hp; simp [consecPairs] at hp
  | cons a t ih =>
    intro hpw p hp
    cases t with
    | nil => simp [consecPairs] at hp
    | cons b rest =>
      simp only [consecPairs] at hp
      rcases List.mem_cons.mp hp with h | h
      · subst h
        exact (List.pairwise_cons.mp hpw).1 b (List.mem_cons_self _ _)
      · exact ih (List.pairwise_cons.mp hpw).2 p h

lemma mem_sortedStationIds {l : List ℤ} {s : ℤ} :
    s ∈ sortedStationIds l ↔ s ∈ l := by
  unfold sortedStationIds
  rw [(List.perm_insertionSort _ _).mem_iff, List.mem_dedup]

lemma nodup_sortedStationIds (l : List ℤ) : (sortedStationIds l).Nodup := by
  unfold sortedStationIds
  rw [(List.perm_insertionSort _ _).nodup_iff]
  exact List.nodup_dedup l

lemma sortByVoltage_sorted (l : List CBus) :
    (sortByVoltage l).Sorted fun a b => a.voltage ≤ b.voltage := by
  haveI : IsTotal CBus fun a b => a.voltage ≤ b.voltage :=
    ⟨fun a b => le_total _ _⟩
  haveI : IsTrans CBus fun a b => a.voltage ≤ b.voltage :=
    ⟨fun a b c hab hbc => le_trans hab hbc⟩
  exact List.sorted_insertionSort _ l

/-- Restriction of a grouped `flatMap` to one group key. -/
lemma filter_flatMap_eq {β : Type} (gids : List ℤ) (f : ℤ → List β)
    (key : β → ℤ) (s : ℤ) (hk : ∀ g ∈ gids, ∀ t ∈ f g, key t = g)
    (hnd : gids.Nodup) :
    (gids.flatMap f).filter (fun t => decide (key t = s))
      = if s ∈ gids then f s else [] := by
  induction gids with
  | nil => simp
  | cons g gs ih =>
    rw [List.flatMap_cons, List.filter_append]
    have hgs := ih (fun g2 hg2 t ht => hk g2 (List.mem_cons_of_mem _ hg2) t ht)
      (List.nodup_cons.mp hnd).2
    by_cases hsg : s = g
    · subst hsg
      have h1 : (f s).filter (fun t => decide (key t = s)) = f s :=
        List.filter_eq_self.mpr fun t ht => by
          simp [hk s (List.mem_cons_self _ _) t ht]
      have hs2 : s ∉ gs := (List.nodup_cons.mp hnd).1
      rw [h1, hgs, if_neg hs2, if_pos (List.mem_cons_self _ _)]
      simp
    · have h1 : (f g).filter (fun t => decide (key t = s)) = [] :=
        List.filter_eq_nil_iff.mpr fun t ht => by
          rw [hk g (List.mem_cons_self _ _) t ht]
          simp
          exact fun hh => hsg hh.symm
      rw [h1, hgs]
      have : (s ∈ g :: gs) ↔ (s ∈ gs) := by
        rw [List.mem_cons]
        exact ⟨fun h => h.resolve_left hsg, fun h => Or.inr h⟩
      by_cases hmem : s ∈ gs
      · rw [if_pos hmem, if_pos (this.mpr hmem)]
        simp
      · rw [if_neg hmem, if_neg (fun hc => hmem (this.mp hc))]
        simp

/-- The `(station, voltage, polarity)` key of a consolidated bus (the data
model's invariant is that this key is unique across the bus table). -/
def busKey (b : CBus) : ℤ × ℤ × Bool := (b.station_id, b.voltage, b.dc)

/-- The distinct AC voltage levels present at station `s`. -/
def acVoltLevels (buses : List CBus) (s : ℤ) : List ℤ :=
  ((buses.filter fun b => !b.dc && decide (b.station_id = s)).map
    fun b => b.voltage).dedup

lemma nodup_volt_of_key {buses : List CBus} {s : ℤ}
    (hinv : (buses.map busKey).Nodup) :
    ((buses.filter fun b => !b.dc && decide (b.station_id = s)).map
      fun b => b.voltage).Nodup := by
  have hsub : ((buses.filter fun b => !b.dc && decide (b.station_id = s)).map
      busKey).Sublist (buses.map busKey) :=
    (List.filter_sublist buses).map busKey
  have hnd := hsub.nodup hinv
  have heq : (buses.filter fun b => !b.dc && decide (b.station_id = s)).map
      busKey
      = ((buses.filter fun b => !b.dc && decide (b.station_id = s)).map
          fun b => b.voltage).map fun v => (s, v, false) := by
    rw [List.map_map]
    apply List.map_congr_left
    intro b hb
    have hmem := (List.mem_filter.mp hb).2
    simp only [Bool.and_eq_true, Bool.not_eq_true', decide_eq_true_eq] at hmem
    simp [busKey, Function.comp, hmem.1, hmem.2]
  rw [heq] at hnd
  exact hnd.of_map _

/-- C7: at every station whose AC buses carry `k` distinct voltage levels,
`get_transformers` creates exactly `k - 1` transformers (so none when
`k < 2`, in particular none at DC-only stations), each connecting a
consecutive pair of the voltage-ascending order (`voltage0 ≤ voltage1`).
The hypothesis is the data model's invariant: one bus per
`(station, voltage, polarity)`. -/
theorem get_transformers_count_spec (buses : List CBus) (s : ℤ)
    (hinv : (buses.map busKey).Nodup) :
    ((get_transformers buses).filter fun t => decide (t.station = s)).length
      = (acVoltLevels buses s).length - 1
    ∧ ∀ t ∈ get_transformers buses, t.voltage0 ≤ t.voltage1 := by
  have hperm : (sortByVoltage (buses.filter fun b => !b.dc)).Perm
      (buses.filter fun b => !b.dc) := List.perm_insertionSort _ _
  have hcomb : ((buses.filter fun b => !b.dc).filter
        fun b => decide (b.station_id = s))
      = buses.filter fun b => !b.dc && decide (b.station_id = s) := by
    rw [List.filter_filter]
    apply List.filter_congr
    intro b _
    rw [Bool.and_comm]
  have hk : (acVoltLevels buses s).length
      = (buses.filter fun b => !b.dc && decide (b.station_id = s)).length := by
    rw [acVoltLevels, List.dedup_eq_self.mpr (nodup_volt_of_key hinv),
      List.length_map]
  constructor
  · have hsplit := filter_flatMap_eq
      (sortedStationIds
        ((sortByVoltage (buses.filter fun b => !b.dc)).map fun b => b.station_id))
      (fun g => (consecPairs ((sortByVoltage (buses.filter fun b => !b.dc)).filter
          fun b => decide (b.station_id = g))).map
        fun pr => (⟨g, pr.1.bus_id, pr.2.bus_id, pr.1.voltage, pr.2.voltage⟩ : Transf))
      (fun t => t.station) s
      (by
        intro g hg t ht
        rw [List.mem_map] at ht
        obtain ⟨pr, _, rfl⟩ := ht
        rfl)
      (nodup_sortedStationIds _)
    simp only [get_transformers]
    rw [hsplit]
    by_cases hmem : s ∈ sortedStationIds
        ((sortByVoltage (buses.filter fun b => !b.dc)).map fun b => b.station_id)
    · rw [if_pos hmem, List.length_map, consecPairs_length]
      rw [(hperm.filter _).length_eq, hcomb, hk]
    · rw [if_neg hmem]
      have hnil : buses.filter (fun b => !b.dc && decide (b.station_id = s))
          = [] := by
        rw [List.filter_eq_nil_iff]
        intro b hb hcon
        simp only [Bool.and_eq_true, Bool.not_eq_true', decide_eq_true_eq]
          at hcon
        apply hmem
        rw [mem_sortedStationIds, List.mem_map]
        refine ⟨b, ?_, hcon.2⟩
        rw [hperm.mem_iff]
        exact List.mem_filter.mpr ⟨hb, by simp [hcon.1]⟩
      rw [hk, hnil]
      rfl
  · intro t ht
    simp only [get_transformers] at ht
    rw [List.mem_flatMap] at ht
    obtain ⟨g, hg, ht2⟩ := ht
    rw [List.mem_map] at ht2
    obtain ⟨pr, hpr, rfl⟩ := ht2
    have hsorted : ((sortByVoltage (buses.filter fun b => !b.dc)).filter
        fun b => decide (b.station_id = g)).Pairwise
          fun a b => a.voltage ≤ b.voltage :=
      List.Pairwise.sublist (List.filter_sublist _) (sortByVoltage_sorted _)
    exact consecPairs_rel hsorted pr hpr

/-- Concrete buses for the C7 witness: one station with AC voltages
110 kV and 220 kV. -/
def wTrBuses : List CBus :=
  [⟨0, 0, 110000, false, 0, 0⟩, ⟨1, 0, 220000, false, 10, 10⟩]

/-- Witness for C7: two distinct AC voltage levels at station 0 yield
exactly one transformer. -/
theorem get_transformers_count_spec_witness :
    ((get_transformers wTrBuses).filter fun t => decide (t.station = 0)).length
      = (acVoltLevels wTrBuses 0).length - 1
    ∧ ∀ t ∈ get_transformers wTrBuses, t.voltage0 ≤ t.voltage1 :=
  get_transformers_count_spec wTrBuses 0 (by decide)

/-! ## Equipment synthesis: `get_converters`

`get_converters` sorts all buses by voltage and groups by station.  A group
with at least one DC and at least one AC bus
(`g_value["dc"].any() & ~g_value["dc"].all()`) yields, for every DC voltage
`u` of the group, one converter between the first DC bus of voltage `u`
(`…index[0]`) and the AC bus whose voltage is closest to `u`
(`ac_voltages.sub(u).abs().idxmin()`). -/

/-- A synthesised converter (station id kept explicit; the source encodes
it in `line_id = f"convert_{station}_{id0}"`). -/
structure Conv where
  station : ℤ
  bus0 : ℤ
  bus1 : ℤ
deriving DecidableEq

/-- First bus attaining the minimum `|voltage - u|`
(`Series.idxmin` returns the first minimiser); `none` on an empty list. -/
def argminAbsVolt (u : ℤ) : List CBus → Option CBus
  | [] => none
  | b :: bs =>
    match argminAbsVolt u bs with
    | none => some b
    | some c => if |b.voltage - u| ≤ |c.voltage - u| then some b else some c

/-- The buses of station `s`, in voltage-ascending group order. -/
def stationGroup (buses : List CBus) (s : ℤ) : List CBus :=
  (sortByVoltage buses).filter fun b => decide (b.station_id = s)

/-- `get_converters`. -/
def get_converters (buses : List CBus) : List Conv :=
  (sortedStationIds ((sortByVoltage buses).map fun b => b.station_id)).flatMap
    fun g =>
      let grp := stationGroup buses g
      if (grp.any fun b => b.dc) && (grp.any fun b => !b.dc) then
        (grp.filter fun b => b.dc).flatMap fun d =>
          match argminAbsVolt d.voltage (grp.filter fun b => !b.dc) with
          | some a =>
            [⟨g, ((grp.filter fun b => b.dc && decide (b.voltage = d.voltage)).headD
              d).bus_id, a.bus_id⟩]
          | none => []
      else []

/-! ### Lemmas about the converter synthesis -/

lemma argminAbsVolt_ne_none {u : ℤ} {b : CBus} {bs : List CBus} :
    argminAbsVolt u (b :: bs) ≠ none := by
  rw [argminAbsVolt]
  cases hx : argminAbsVolt u bs with
  | none => simp
  | some c =>
    by_cases hle : |b.voltage - u| ≤ |c.voltage - u| <;> simp [hle]

lemma argminAbsVolt_spec {u : ℤ} : ∀ {l : List CBus} {a : CBus},
    argminAbsVolt u l = some a →
      a ∈ l ∧ ∀ c ∈ l, |a.voltage - u| ≤ |c.voltage - u| := by
  intro l
  induction l with
  | nil => intro a h; simp [argminAbsVolt] at h
  | cons b bs ih =>
    intro a h
    rw [argminAbsVolt] at h
    cases hbs : argminAbsVolt u bs with
    | none =>
      rw [hbs] at h
      simp at h
      subst h
      have hnil : bs = [] := by
        cases bs with
        | nil => rfl
        | cons x xs => exact absurd hbs argminAbsVolt_ne_none
      subst hnil
      refine ⟨List.mem_cons_self _ _, ?_⟩
      intro c hc
      simp at hc
      subst hc
      exact le_refl _
    | some a2 =>
      simp only [hbs] at h
      obtain ⟨hmem, hmin⟩ := ih hbs
      by_cases hle : |b.voltage - u| ≤ |a2.voltage - u|
      · rw [if_pos hle] at h
        simp at h
        subst h
        refine ⟨List.mem_cons_self _ _, ?_⟩
        intro c hc
        rcases List.mem_cons.mp hc with rfl | hc2
        · exact le_refl _
        · exact le_trans hle (hmin c hc2)
      · rw [if_neg hle] at h
        simp at h
        subst h
        refine ⟨List.mem_cons_of_mem _ hmem, ?_⟩
        intro c hc
        rcases List.mem_cons.mp hc with rfl | hc2
        · exact le_of_lt (lt_of_not_le hle)
        · exact hmin c hc2

lemma sortByVoltage_perm (l : List CBus) : (sortByVoltage l).Perm l :=
  List.perm_insertionSort _ _

lemma stationGroup_mem {buses : List CBus} {s : ℤ} {b : CBus} :
    b ∈ stationGroup buses s ↔ b ∈ buses ∧ b.station_id = s := by
  unfold stationGroup
  rw [List.mem_filter, (sortByVoltage_perm buses).mem_iff]
  simp

lemma mem_converter_gids {buses : List CBus} {s : ℤ} :
    s ∈ sortedStationIds ((sortByVoltage buses).map fun b => b.station_id)
      ↔ ∃ b ∈ buses, b.station_id = s := by
  rw [mem_sortedStationIds, List.mem_map]
  constructor
  · rintro ⟨b, hb, rfl⟩
    exact ⟨b, (sortByVoltage_perm buses).mem_iff.mp hb, rfl⟩
  · rintro ⟨b, hb, hs⟩
    exact ⟨b, (sortByVoltage_perm buses).mem_iff.mpr hb, hs⟩

lemma mem_all_eq_nodup_map {α β : Type} {f : α → β} {m : List α} {c : β}
    {d : α} (hn : (m.map f).Nodup) (hc : ∀ x ∈ m, f x = c) (hd : d ∈ m) :
    m = [d] := by
  have hrep : m.map f = List.replicate m.length c := by
    rw [List.eq_replicate_iff]
    refine ⟨by simp, ?_⟩
    intro b hb
    rw [List.mem_map] at hb
    obtain ⟨x, hx, rfl⟩ := hb
    exact hc x hx
  rw [hrep] at hn
  have hle : m.length ≤ 1 := List.nodup_replicate.mp hn
  have hpos : 0 < m.length := List.length_pos_of_mem hd
  obtain ⟨x, hx⟩ := List.length_eq_one.mp (show m.length = 1 by omega)
  subst hx
  simp at hd
  subst hd
  rfl

lemma filter_ne_nil_of_any {p : CBus → Bool} {l : List CBus}
    (h : l.any p = true) : l.filter p ≠ [] := by
  rw [List.any_eq_true] at h
  obtain ⟨x, hx, hpx⟩ := h
  exact List.ne_nil_of_mem (List.mem_filter.mpr ⟨hx, hpx⟩)

lemma flatMap_converters_bus0 (s : ℤ) (acs : List CBus) (d0f : CBus → CBus)
    (hacs : acs ≠ []) :
    ∀ dcs : List CBus,
      ((dcs.flatMap fun d =>
          match argminAbsVolt d.voltage acs with
          | some a => [(⟨s, (d0f d).bus_id, a.bus_id⟩ : Conv)]
          | none => []).map fun c => c.bus0)
        = dcs.map fun d => (d0f d).bus_id := by
  intro dcs
  induction dcs with
  | nil => rfl
  | cons d ds ih =>
    rw [List.flatMap_cons, List.map_append, ih]
    cases ha : argminAbsVolt d.voltage acs with
    | none =>
      exfalso
      cases acs with
      | nil => exact hacs rfl
      | cons x xs => exact argminAbsVolt_ne_none ha
    | some a =>
      simp only [ha, List.map_cons]
      rfl

/-- C8: at every station, under the one-bus-per-`(station, voltage,
polarity)` invariant: when at least one AC bus is present,
`get_converters` creates exactly one converter per DC bus of the station —
the `bus0` column of the station's converters is exactly the station's DC
bus list — and every converter of the station connects a DC bus to an AC
bus of the same station attaining the minimum absolute voltage difference;
a station with no AC bus, or with no DC bus, yields zero converters. -/
theorem get_converters_spec (buses : List CBus) (s : ℤ)
    (hinv : (buses.map busKey).Nodup) :
    (((stationGroup buses s).filter fun b => !b.dc) ≠ [] →
      (((get_converters buses).filter fun c => decide (c.station = s)).map
          fun c => c.bus0)
        = ((stationGroup buses s).filter fun b => b.dc).map fun b => b.bus_id)
    ∧ (((stationGroup buses s).filter fun b => !b.dc) = [] →
      (get_converters buses).filter (fun c => decide (c.station = s)) = [])
    ∧ (((stationGroup buses s).filter fun b => b.dc) = [] →
      (get_converters buses).filter (fun c => decide (c.station = s)) = [])
    ∧ ((stationGroup buses s).filter fun b => b.dc).length
        = (buses.filter fun b => b.dc && decide (b.station_id = s)).length
    ∧ ∀ c ∈ (get_converters buses).filter fun c => decide (c.station = s),
        ∃ d ∈ buses, ∃ a ∈ buses,
          d.dc = true ∧ d.station_id = s ∧ c.bus0 = d.bus_id
          ∧ a.dc = false ∧ a.station_id = s ∧ c.bus1 = a.bus_id
          ∧ ∀ e ∈ buses, e.dc = false → e.station_id = s →
              |a.voltage - d.voltage| ≤ |e.voltage - d.voltage| := by
  have hlen4 : ((stationGroup buses s).filter fun b => b.dc).length
      = (buses.filter fun b => b.dc && decide (b.station_id = s)).length := by
    unfold stationGroup
    rw [List.filter_filter]
    exact ((sortByVoltage_perm buses).filter _).length_eq
  have hsplit := filter_flatMap_eq
    (sortedStationIds ((sortByVoltage buses).map fun b => b.station_id))
    (fun g =>
      if ((stationGroup buses g).any fun b => b.dc)
          && ((stationGroup buses g).any fun b => !b.dc) then
        ((stationGroup buses g).filter fun b => b.dc).flatMap fun d =>
          match argminAbsVolt d.voltage
              ((stationGroup buses g).filter fun b => !b.dc) with
          | some a =>
            [(⟨g, (((stationGroup buses g).filter
                fun b => b.dc && decide (b.voltage = d.voltage)).headD d).bus_id,
              a.bus_id⟩ : Conv)]
          | none => []
      else [])
    (fun c : Conv => c.station) s
    (by
      intro g hg t ht
      beta_reduce at ht
      by_cases hcond : (((stationGroup buses g).any fun b => b.dc)
          && ((stationGroup buses g).any fun b => !b.dc)) = true
      · rw [if_pos hcond, List.mem_flatMap] at ht
        obtain ⟨d, _, ht2⟩ := ht
        cases ha : argminAbsVolt d.voltage
            ((stationGroup buses g).filter fun b => !b.dc) with
        | none => simp only [ha] at ht2; simp at ht2
        | some a =>
          simp only [ha] at ht2
          simp at ht2
          subst ht2
          rfl
      · rw [if_neg hcond] at ht
        simp at ht)
    (nodup_sortedStationIds _)
  have hconv : (get_converters buses).filter (fun c => decide (c.station = s))
      = if s ∈ sortedStationIds
            ((sortByVoltage buses).map fun b => b.station_id) then
          (if ((stationGroup buses s).any fun b => b.dc)
              && ((stationGroup buses s).any fun b => !b.dc) then
            ((stationGroup buses s).filter fun b => b.dc).flatMap fun d =>
              match argminAbsVolt d.voltage
                  ((stationGroup buses s).filter fun b => !b.dc) with
              | some a =>
                [⟨s, (((stationGroup buses s).filter
                    fun b => b.dc && decide (b.voltage = d.voltage)).headD
                    d).bus_id, a.bus_id⟩]
              | none => []
          else [])
        else [] := by
    simp only [get_converters]
    exact hsplit
  by_cases hmem : s ∈ sortedStationIds
      ((sortByVoltage buses).map fun b => b.station_id)
  case neg =>
    have hgrpnil : stationGroup buses s = [] := by
      rcases hval : stationGroup buses s with _ | ⟨b, t⟩
      · rfl
      · exfalso
        have hb : b ∈ stationGroup buses s := by
          rw [hval]; exact List.mem_cons_self _ _
        obtain ⟨hbb, hbs⟩ := stationGroup_mem.mp hb
        exact hmem (mem_converter_gids.mpr ⟨b, hbb, hbs⟩)
    have hempty : (get_converters buses).filter
        (fun c => decide (c.station = s)) = [] := by
      rw [hconv, if_neg hmem]
    refine ⟨?_, fun _ => hempty, fun _ => hempty, hlen4, ?_⟩
    · intro _
      rw [hempty, hgrpnil]
      rfl
    · intro c hc
      rw [hempty] at hc
      simp at hc
  case pos =>
    rw [if_pos hmem] at hconv
    by_cases hcond : (((stationGroup buses s).any fun b => b.dc)
        && ((stationGroup buses s).any fun b => !b.dc)) = true
    case neg =>
      rw [if_neg hcond] at hconv
      refine ⟨?_, fun _ => hconv, fun _ => hconv, hlen4, ?_⟩
      · intro hacs
        rw [hconv]
        have hanyac : ((stationGroup buses s).any fun b => !b.dc) = true := by
          rcases hval : (stationGroup buses s).filter (fun b => !b.dc)
              with _ | ⟨b, t⟩
          · exact absurd hval hacs
          · have hb : b ∈ (stationGroup buses s).filter fun b => !b.dc := by
              rw [hval]; exact List.mem_cons_self _ _
            have := List.mem_filter.mp hb
            exact List.any_eq_true.mpr ⟨b, this.1, this.2⟩
        have hanydc : ((stationGroup buses s).any fun b => b.dc) = false := by
          by_contra hcon
          rw [Bool.not_eq_false] at hcon
          exact hcond (by rw [hcon, hanyac]; rfl)
        have hdcnil : (stationGroup buses s).filter (fun b => b.dc) = [] := by
          rw [List.filter_eq_nil_iff]
          intro b hb hbdc
          have : (stationGroup buses s).any (fun b => b.dc) = true :=
            List.any_eq_true.mpr ⟨b, hb, hbdc⟩
          rw [this] at hanydc
          simp at hanydc
        rw [hdcnil]
        rfl
      · intro c hc
        rw [hconv] at hc
        simp at hc
    case pos =>
      rw [if_pos hcond] at hconv
      simp only [Bool.and_eq_true] at hcond
      obtain ⟨hanydc, hanyac⟩ := hcond
      have hdcs : (stationGroup buses s).filter (fun b => b.dc) ≠ [] :=
        filter_ne_nil_of_any hanydc
      have hacs : (stationGroup buses s).filter (fun b => !b.dc) ≠ [] :=
        filter_ne_nil_of_any hanyac
      have hgrpnodup : ((stationGroup buses s).map busKey).Nodup := by
        have hsub : ((stationGroup buses s).map busKey).Sublist
            ((sortByVoltage buses).map busKey) :=
          (List.filter_sublist _).map busKey
        exact hsub.nodup
          (((sortByVoltage_perm buses).map busKey).nodup_iff.mpr hinv)
      have hd0 : ∀ d ∈ (stationGroup buses s).filter fun b => b.dc,
          ((stationGroup buses s).filter
            fun b => b.dc && decide (b.voltage = d.voltage)).headD d = d := by
        intro d hd
        have hdf := List.mem_filter.mp hd
        have hm : (stationGroup buses s).filter
            (fun b => b.dc && decide (b.voltage = d.voltage)) = [d] := by
          apply mem_all_eq_nodup_map (f := busKey) (c := (s, d.voltage, true))
          · exact ((List.filter_sublist _).map busKey).nodup hgrpnodup
          · intro x hx
            have hxf := List.mem_filter.mp hx
            have hxg := stationGroup_mem.mp hxf.1
            have hxp := hxf.2
            simp only [Bool.and_eq_true, decide_eq_true_eq] at hxp
            simp [busKey, hxg.2, hxp.1, hxp.2]
          · exact List.mem_filter.mpr ⟨hdf.1, by simp [hdf.2]⟩
        rw [hm]
        rfl
      refine ⟨?_, fun h => absurd h hacs, fun h => absurd h hdcs, hlen4, ?_⟩
      · intro _
        rw [hconv]
        rw [flatMap_converters_bus0 s _ _ hacs]
        apply List.map_congr_left
        intro d hd
        rw [hd0 d hd]
      · intro c hc
        rw [hconv, List.mem_flatMap] at hc
        obtain ⟨d, hd, hc2⟩ := hc
        cases ha : argminAbsVolt d.voltage
            ((stationGroup buses s).filter fun b => !b.dc) with
        | none =>
          exfalso
          rcases hval : (stationGroup buses s).filter (fun b => !b.dc)
              with _ | ⟨x, xs⟩
          · exact hacs hval
          · rw [hval] at ha
            exact argminAbsVolt_ne_none ha
        | some a =>
          simp only [ha] at hc2
          rw [List.mem_singleton] at hc2
          subst hc2
          obtain ⟨hspec_mem, hspec_min⟩ := argminAbsVolt_spec ha
          have hdf := List.mem_filter.mp hd
          have hdg := stationGroup_mem.mp hdf.1
          have haf := List.mem_filter.mp hspec_mem
          have hag := stationGroup_mem.mp haf.1
          refine ⟨d, hdg.1, a, hag.1, hdf.2, hdg.2, ?_, ?_, hag.2, rfl, ?_⟩
          · rw [hd0 d hd]
          · simpa using haf.2
          · intro e he hedc hes
            apply hspec_min
            apply List.mem_filter.mpr
            refine ⟨stationGroup_mem.mpr ⟨he, hes⟩, by simp [hedc]⟩

/-- Concrete buses for the C8 witness: one AC bus (220 kV) and one DC bus
(150 kV) at station 0. -/
def wCvBuses : List CBus :=
  [⟨0, 0, 220000, false, 0, 0⟩, ⟨1, 0, 150000, true, 10, 10⟩]

/-- Witness for C8 at `wCvBuses`. -/
theorem get_converters_spec_witness :
    (((stationGroup wCvBuses 0).filter fun b => !b.dc) ≠ [] →
      (((get_converters wCvBuses).filter fun c => decide (c.station = 0)).map
          fun c => c.bus0)
        = ((stationGroup wCvBuses 0).filter fun b => b.dc).map fun b => b.bus_id)
    ∧ (((stationGroup wCvBuses 0).filter fun b => !b.dc) = [] →
      (get_converters wCvBuses).filter (fun c => decide (c.station = 0)) = [])
    ∧ (((stationGroup wCvBuses 0).filter fun b => b.dc) = [] →
      (get_converters wCvBuses).filter (fun c => decide (c.station = 0)) = [])
    ∧ ((stationGroup wCvBuses 0).filter fun b => b.dc).length
        = (wCvBuses.filter fun b => b.dc && decide (b.station_id = 0)).length
    ∧ ∀ c ∈ (get_converters wCvBuses).filter fun c => decide (c.station = 0),
        ∃ d ∈ wCvBuses, ∃ a ∈ wCvBuses,
          d.dc = true ∧ d.station_id = 0 ∧ c.bus0 = d.bus_id
          ∧ a.dc = false ∧ a.station_id = 0 ∧ c.bus1 = a.bus_id
          ∧ ∀ e ∈ wCvBuses, e.dc = false → e.station_id = 0 →
              |a.voltage - d.voltage| ≤ |e.voltage - d.voltage| :=
  get_converters_spec wCvBuses 0 (by decide)

/-! ## Overpassing-line correction: `fix_overpassing_lines`

For each line, buses within tolerance of the line's path are collected
(`buses.distance(line) <= tol`); then the source applies the endpoint
filter `(dist(bus, end0) > tol) | (dist(bus, end1) > tol)` — an OR of the
two conditions.  When the remaining set is nonempty, the line is removed
and replaced by the pieces of `_split_linestring_by_point` with ids
suffixed `_0, _1, …`; finally `pd.concat(lines_to_add)` raises
`ValueError` when `lines_to_add` is empty. -/

/-- `distance(p, segment [a,b]) ≤ tol`, division free: on the interior of
the segment `distSq(p, seg) = (q·q·len2 - dot²)/len2` with `len2 > 0`, so
the comparison is cross-multiplied by `len2`. -/
def segWithinTol (a b p : Pt) (tolSq : ℤ) : Bool :=
  let dx := b.1 - a.1
  let dy := b.2 - a.2
  let qx := p.1 - a.1
  let qy := p.2 - a.2
  let dot := qx * dx + qy * dy
  let len2 := dx * dx + dy * dy
  if len2 = 0 then decide (qx * qx + qy * qy ≤ tolSq)
  else if dot ≤ 0 then decide (qx * qx + qy * qy ≤ tolSq)
  else if len2 ≤ dot then decide (distSq p b ≤ tolSq)
  else decide ((qx * qx + qy * qy) * len2 - dot * dot ≤ tolSq * len2)

/-- `distance(p, linestring) ≤ tol`: some segment of the path is within
tolerance (the distance to a linestring is the minimum over its
segments). -/
def lsWithinTol (p : Pt) : List Pt → ℤ → Bool
  | a :: b :: rest, tolSq =>
    segWithinTol a b p tolSq || lsWithinTol p (b :: rest) tolSq
  | [a], tolSq => decide (distSq p a ≤ tolSq)
  | [], _ => false

/-- The bus filter of `fix_overpassing_lines`: buses within tolerance of
the path, then the source's endpoint exclusion — the OR keeps any bus that
is beyond tolerance of at least one endpoint. -/
def overpassCandidates (geom : List Pt) (buses : List Pt) (tolSq : ℤ) :
    List Pt :=
  (buses.filter fun b => lsWithinTol b geom tolSq).filter fun b =>
    decide (tolSq < distSq b (geom.headD (0, 0)))
      || decide (tolSq < distSq b (geom.getLastD (0, 0)))

/-- Is `p` on the closed segment `[a, b]`?  (Collinear and between.) -/
def onSegment (a b p : Pt) : Bool :=
  decide ((p.1 - a.1) * (b.2 - a.2) = (p.2 - a.2) * (b.1 - a.1))
    && decide (0 ≤ (p.1 - a.1) * (b.1 - a.1) + (p.2 - a.2) * (b.2 - a.2))
    && decide ((p.1 - a.1) * (b.1 - a.1) + (p.2 - a.2) * (b.2 - a.2)
        ≤ (b.1 - a.1) * (b.1 - a.1) + (b.2 - a.2) * (b.2 - a.2))

/-- Walk the vertex chain looking for the first place where `p` lies on the
path; `acc` holds the vertices already passed, ending at `prev`. -/
def shapelySplitGo (p : Pt) : Pt → List Pt → List Pt →
    Option (List Pt × List Pt)
  | _, _, [] => none
  | prev, acc, b :: rest =>
    if p = b then
      if rest = [] then none
      else some (acc ++ [b], b :: rest)
    else if onSegment prev b p then
      some (acc ++ [p], p :: b :: rest)
    else shapelySplitGo p b (acc ++ [b]) rest

/-- Model of `shapely.ops.split(linestring, point)`: when the point lies in
the interior of the path, the result collection holds the two parts; when
the point is not on the path, or is one of its two boundary endpoints, the
collection holds the original line unchanged. -/
def shapelySplit (ls : List Pt) (p : Pt) : List (List Pt) :=
  match ls with
  | [] => [ls]
  | a :: rest =>
    if p = a then [ls]
    else
      match shapelySplitGo p a [a] rest with
      | some (pre, suf) => [pre, suf]
      | none => [ls]

/-- `_split_linestring_by_point`: successively split every current piece at
every point (`temp_list = [split(l, p) for l in list_linestrings]`, then
flatten). -/
def split_linestring_by_point (geom : List Pt) (points : List Pt) :
    List (List Pt) :=
  points.foldl (fun acc p => acc.flatMap fun ls => shapelySplit ls p) [geom]

/-- A line record for the overpassing stage: id and geometry; the other
attribute columns are copied unchanged onto every segment. -/
structure OLine where
  line_id : String
  geometry : List Pt
deriving DecidableEq

/-- The replacement records of one split line: geometry `i` of the split,
id suffixed `_{i}` (`str(line_id) + f"_{id}"`). -/
def segmentRecords (l : OLine) (geoms : List (List Pt)) : List OLine :=
  (List.range geoms.length).map fun i =>
    ⟨l.line_id ++ "_" ++ toString i, geoms.getD i []⟩

/-- `fix_overpassing_lines`: lines with a nonempty candidate set are
removed (`lines.drop(lines_to_split)`) and the replacement pieces are
appended; when NO line produced any split, `pd.concat(lines_to_add)` is
called on an empty list and raises `ValueError`, embedded as `none`. -/
def fix_overpassing_lines (lines : List OLine) (buses : List Pt)
    (tolSq : ℤ) : Option (List OLine) :=
  let kept := lines.filter fun l =>
    (overpassCandidates l.geometry buses tolSq).isEmpty
  let toAdd := (lines.filter fun l =>
    !(overpassCandidates l.geometry buses tolSq).isEmpty).map fun l =>
      segmentRecords l
        (split_linestring_by_point l.geometry
          (overpassCandidates l.geometry buses tolSq))
  if toAdd.isEmpty then none
  else some (kept ++ toAdd.flatten)

/-- C10: on a non-empty line table where no line has any split-candidate
bus, `fix_overpassing_lines` raises (the `pd.concat` of an empty list of
frames) instead of returning the input line table unchanged. -/
theorem fix_overpassing_no_candidates_fails (lines : List OLine)
    (buses : List Pt) (tolSq : ℤ) (_hne : lines ≠ [])
    (hall : ∀ l ∈ lines, overpassCandidates l.geometry buses tolSq = []) :
    fix_overpassing_lines lines buses tolSq = none := by
  have htoadd : (lines.filter fun l =>
      !(overpassCandidates l.geometry buses tolSq).isEmpty) = [] := by
    rw [List.filter_eq_nil_iff]
    intro l hl
    rw [hall l hl]
    simp
  simp only [fix_overpassing_lines]
  rw [htoadd]
  rfl

/-- Witness for C10: a line far from the single bus. -/
theorem fix_overpassing_no_candidates_fails_witness :
    fix_overpassing_lines [⟨"L", [(0, 0), (10, 0)]⟩] [(5, 5)] 1 = none :=
  fix_overpassing_no_candidates_fails [⟨"L", [(0, 0), (10, 0)]⟩] [(5, 5)] 1
    (by decide) (by decide)

/-- C1 (code defect): for the straight line `(0,0)–(20,0)` with tolerance 2
(squared tolerance 4), the bus `(10, 1)` lies within tolerance of the path
and beyond tolerance of both endpoints — exactly one intervening bus — yet
the code produces 1 segment, not 2: `shapely.ops.split` is called with the
bus's own location, which does not lie on the line, so no split happens;
the line is merely replaced by a single renamed copy.  The advertised
split at the bus's projected location never occurs for off-path buses. -/
theorem fix_overpassing_offline_bus_not_split :
    overpassCandidates [(0, 0), (20, 0)] [(10, 1)] 4 = [(10, 1)]
    ∧ lsWithinTol (10, 1) [(0, 0), (20, 0)] 4 = true
    ∧ 4 < distSq (10, 1) (0, 0) ∧ 4 < distSq (10, 1) (20, 0)
    ∧ (split_linestring_by_point [(0, 0), (20, 0)] [(10, 1)]).length = 1
    ∧ fix_overpassing_lines [⟨"L", [(0, 0), (20, 0)]⟩] [(10, 1)] 4
        = some [⟨"L_0", [(0, 0), (20, 0)]⟩] := by decide

/-- C5 (code defect): for the line `(0,0)–(20,0)` with tolerance 2
(squared tolerance 4), the bus `(1, 0)` is within tolerance of the
endpoint `(0,0)` (`distSq = 1 ≤ 4`), yet it passes the source's endpoint
filter — the OR of the two far-from-endpoint conditions excludes only
buses near BOTH endpoints — and the line is split at it into 2 segments:
a bus within tolerance of an endpoint does cause a split. -/
theorem fix_overpassing_endpoint_bus_triggers_split :
    overpassCandidates [(0, 0), (20, 0)] [(1, 0)] 4 = [(1, 0)]
    ∧ distSq (1, 0) (0, 0) ≤ 4
    ∧ (split_linestring_by_point [(0, 0), (20, 0)] [(1, 0)]).length = 2
    ∧ fix_overpassing_lines [⟨"L", [(0, 0), (20, 0)]⟩] [(1, 0)] 4
        = some [⟨"L_0", [(0, 0), (1, 0)]⟩, ⟨"L_1", [(1, 0), (20, 0)]⟩] := by
  decide

/-! ## Region partitioner: `custom_voronoi_partition_pts`

The `scipy.spatial.Voronoi` computation and the shapely cell construction,
validity repair and clipping are external libraries; they are abstracted
as the parameters `vorOk` (whether `Voronoi` succeeds on the stacked
seed-plus-guard array) and `cell` (the clipped polygon the loop computes
for seed index `i`).  The repository-side logic — the single-point
fallback, the guard-corner construction, and the one-cell-per-input-point
loop — is embedded below. -/

/-- A polygon, as its vertex list. -/
abbrev Polygon := List Pt

/-- The seed points with the four guard corners appended (`np.vstack`), at
`multiplier` times the span outside the bounding box.  The source's
`xmax = min(xmax, maxx_o)` and `ymax = min(ymax, maxy_o)` (a `min` where a
bound extension would want `max`) are reproduced as-is.  `np.amin` of an
empty seed array raises, so the caller never reaches this with `[]`. -/
def stackedSeedPoints (points : List Pt) (outline : Polygon)
    (addBoundsShape : Bool) (multiplier : ℤ) : List Pt :=
  match points with
  | [] => []
  | p :: rest =>
    let xmin0 := (rest.map fun q => q.1).foldl min p.1
    let ymin0 := (rest.map fun q => q.2).foldl min p.2
    let xmax0 := (rest.map fun q => q.1).foldl max p.1
    let ymax0 := (rest.map fun q => q.2).foldl max p.2
    let o0 := outline.headD (0, 0)
    let minxo := (outline.map fun q => q.1).foldl min o0.1
    let minyo := (outline.map fun q => q.2).foldl min o0.2
    let maxxo := (outline.map fun q => q.1).foldl max o0.1
    let maxyo := (outline.map fun q => q.2).foldl max o0.2
    let xmin := if addBoundsShape then min xmin0 minxo else xmin0
    let ymin := if addBoundsShape then min ymin0 minyo else ymin0
    let xmax := if addBoundsShape then min xmax0 maxxo else xmax0
    let ymax := if addBoundsShape then min ymax0 maxyo else ymax0
    let xspan := xmax - xmin
    let yspan := ymax - ymin
    (p :: rest) ++
      [(xmin - multiplier * xspan, ymin - multiplier * yspan),
        (xmin - multiplier * xspan, ymax + multiplier * yspan),
        (xmax + multiplier * xspan, ymin - multiplier * yspan),
        (xmax + multiplier * xspan, ymax + multiplier * yspan)]

/-- `custom_voronoi_partition_pts`: fallback `[outline]` iff
`len(points) == 1`; an empty seed list fails (`np.amin` of an empty array
raises); otherwise the loop fills one clipped cell per input point, or the
whole computation fails when `Voronoi` does. -/
def custom_voronoi_partition_pts (vorOk : List Pt → Bool)
    (cell : List Pt → Polygon → ℕ → Polygon) (points : List Pt)
    (outline : Polygon) (addBoundsShape : Bool := true)
    (multiplier : ℤ := 5) : Option (List Polygon) :=
  if points.length = 1 then some [outline]
  else
    match points with
    | [] => none
    | _ :: _ =>
      let stacked := stackedSeedPoints points outline addBoundsShape multiplier
      if vorOk stacked then
        some ((List.range points.length).map (cell stacked outline))
      else none

/-- C9 (amended): the partitioner returns the whole outline as a single
region exactly when the seed list has exactly one POINT — not one distinct
location; a seed list of two or more points, even all at one location,
never takes the single-outline fallback: the else branch produces one
region per input point when the Voronoi computation succeeds, or fails. -/
theorem custom_voronoi_single_region_iff_one_point
    (vorOk : List Pt → Bool) (cell : List Pt → Polygon → ℕ → Polygon)
    (points : List Pt) (outline : Polygon) (addB : Bool) (mult : ℤ) :
    custom_voronoi_partition_pts vorOk cell points outline addB mult
      = some [outline] ↔ points.length = 1 := by
  constructor
  · intro h
    by_contra hne
    rw [custom_voronoi_partition_pts.eq_def, if_neg hne] at h
    cases points with
    | nil => simp at h
    | cons p rest =>
      dsimp only at h
      by_cases hv : vorOk (stackedSeedPoints (p :: rest) outline addB mult)
          = true
      · rw [if_pos hv] at h
        simp at h
        apply hne
        have := congrArg List.length h
        simpa using this
      · rw [if_neg hv] at h
        simp at h
  · intro h
    rw [custom_voronoi_partition_pts.eq_def, if_pos h]

/-- C9 counterexample: two coincident seed points — exactly one distinct
seed location — do not produce the whole-outline single region: the code
falls back only on `len(points) == 1` and otherwise attempts the Voronoi
computation (here instantiated with an oracle that succeeds), returning
one region per input point. -/
theorem custom_voronoi_duplicate_seed_cex :
    ([((0 : ℤ), (0 : ℤ)), (0, 0)] : List Pt).dedup.length = 1
    ∧ custom_voronoi_partition_pts (fun _ => true) (fun _ _ _ => [])
        [((0 : ℤ), (0 : ℤ)), (0, 0)] [(0, 0), (40, 0), (0, 40)] true 5
        ≠ some [[(0, 0), (40, 0), (0, 40)]] := by decide

end PyPSABO
